import Mathlib

/-!
Verification of the vk_ddisplay sample's allocation, scheduling and
submission logic, shallowly embedded from the C++ sources.
-/

namespace VkDdisplay

/-- Embeds `vkdd::Interval` (vulkan_memory_pool.cpp): a half-open byte range
`[m_begin, m_end)` inside a device-memory page. -/
structure Interval where
  m_begin : Nat
  m_end : Nat
deriving DecidableEq, Repr

/-- Embeds `Interval::operator<`: lexicographic order on `(m_begin, m_end)`. -/
def Interval.lt (a b : Interval) : Bool :=
  if a.m_begin ≠ b.m_begin then decide (a.m_begin < b.m_begin) else decide (a.m_end < b.m_end)

/-- Embeds `Interval::intersects`. -/
def Interval.intersects (a b : Interval) : Bool :=
  decide (a.m_begin < b.m_end) && decide (b.m_begin < a.m_end)

/-- Embeds `std::lower_bound` over the free-interval vector: the index of the
first element that is not less than `v`.  The vectors the program hands to it
are sorted, on which the binary search coincides with this linear scan. -/
def lowerBound (v : Interval) : List Interval → Nat
  | [] => 0
  | x :: xs => if Interval.lt x v then lowerBound v xs + 1 else 0

/-- Embeds the body of `PageAllocation::requestInterval`
(vulkan_memory_pool.cpp:206-235) as a recursion over the free-interval list:
returns the carved interval together with the updated free-interval list, or
`none` when no free interval can fit `size` bytes once aligned. -/
def requestIntervalCore (size alignment : Nat) : List Interval → Option (Interval × List Interval)
  | [] => none
  | interval :: rest =>
    let alignedBegin := interval.m_begin + (alignment - interval.m_begin % alignment) % alignment
    if alignedBegin + size ≤ interval.m_end then
      if alignedBegin = interval.m_begin ∧ alignedBegin + size = interval.m_end then
        some (⟨alignedBegin, alignedBegin + size⟩, rest)
      else if alignedBegin + size = interval.m_end then
        some (⟨alignedBegin, alignedBegin + size⟩, ⟨interval.m_begin, alignedBegin⟩ :: rest)
      else if interval.m_begin ≠ alignedBegin then
        some (⟨alignedBegin, alignedBegin + size⟩,
          ⟨interval.m_begin, alignedBegin⟩ :: ⟨alignedBegin + size, interval.m_end⟩ :: rest)
      else
        some (⟨alignedBegin, alignedBegin + size⟩, ⟨alignedBegin + size, interval.m_end⟩ :: rest)
    else
      match requestIntervalCore size alignment rest with
      | none => none
      | some (iv, rest') => some (iv, interval :: rest')

/-- Embeds `PageAllocation::returnInterval` (vulkan_memory_pool.cpp:237-279).
The C++ dereferences the `lower_bound` iterator `lbIt`; in the branch where
`lbIt == m_freeIntervals.end()` those reads (`lbIt->m_begin`, `lbIt->m_end`)
are past the end of the vector, which this total embedding models by indexing
with `List.get?` and returning `none` on the out-of-bounds case. -/
def returnIntervalCore (freeIntervals : List Interval) (interval : Interval) :
    Option (List Interval) :=
  if interval.m_begin = interval.m_end then some freeIntervals
  else
    let lb := lowerBound interval freeIntervals
    if lb = freeIntervals.length then
      if freeIntervals.isEmpty then some (freeIntervals ++ [interval])
      else
        match freeIntervals.get? lb with
        | none => none
        | some lbElem =>
          if (freeIntervals.getLastD ⟨0, 0⟩).m_end = lbElem.m_begin then
            some (freeIntervals.set (freeIntervals.length - 1)
              ⟨(freeIntervals.getLastD ⟨0, 0⟩).m_begin, lbElem.m_end⟩)
          else some (freeIntervals ++ [interval])
    else
      match freeIntervals.get? lb with
      | none => none
      | some lbElem =>
        let mergeWithPrev : Bool :=
          decide (lb ≠ 0) && decide ((freeIntervals.getD (lb - 1) ⟨0, 0⟩).m_end = interval.m_begin)
        let mergeWithNext : Bool := decide (interval.m_end = lbElem.m_begin)
        if mergeWithPrev && mergeWithNext then
          some ((freeIntervals.set (lb - 1)
            ⟨(freeIntervals.getD (lb - 1) ⟨0, 0⟩).m_begin, lbElem.m_end⟩).eraseIdx lb)
        else if mergeWithPrev then
          some (freeIntervals.set (lb - 1)
            ⟨(freeIntervals.getD (lb - 1) ⟨0, 0⟩).m_begin, interval.m_end⟩)
        else if mergeWithNext then
          some (freeIntervals.set lb ⟨interval.m_begin, lbElem.m_end⟩)
        else
          some (freeIntervals.take lb ++ interval :: freeIntervals.drop lb)

/-- Embeds `PageAllocation`: the page's byte size plus its free-interval list
(the Vulkan device handles play no role in the allocation logic). -/
structure PageAllocation where
  m_size : Nat
  m_freeIntervals : List Interval
deriving DecidableEq, Repr

/-- A page as built by the `PageAllocation` constructor
(vulkan_memory_pool.cpp:132-139): one free interval covering `[0, size)`. -/
def PageAllocation.fresh (size : Nat) : PageAllocation :=
  ⟨size, [⟨0, size⟩]⟩

/-- Embeds `PageAllocation::requestInterval` at the page level. -/
def PageAllocation.requestInterval (p : PageAllocation) (size alignment : Nat) :
    Option (Interval × PageAllocation) :=
  (requestIntervalCore size alignment p.m_freeIntervals).map fun r => (r.1, ⟨p.m_size, r.2⟩)

/-- Embeds `PageAllocation::returnInterval` at the page level. -/
def PageAllocation.returnInterval (p : PageAllocation) (iv : Interval) : Option PageAllocation :=
  (returnIntervalCore p.m_freeIntervals iv).map fun l => ⟨p.m_size, l⟩

/-- Embeds `VulkanMemoryPool`: the minimum page allocation size (default
`4 << 20`, vulkan_memory_pool.hpp:31) and the list of pages in creation
order. -/
structure VulkanMemoryPool where
  m_minPageAllocationSize : Nat
  m_pageAllocations : List PageAllocation
deriving DecidableEq, Repr

/-- Embeds `VulkanMemoryPool::Allocation`: the page it came from (identified by
its index in creation order, standing for the C++ `vk::DeviceMemory` handle),
the byte offset inside the page, and the byte length. -/
structure Allocation where
  pageIdx : Nat
  m_devMemOffset : Nat
  m_size : Nat
deriving DecidableEq, Repr

/-- The page-scanning loop of `VulkanMemoryPool::alloc`
(vulkan_memory_pool.cpp:165-174): first page whose `requestInterval`
succeeds, in creation order. -/
def allocScan (size alignment : Nat) :
    List PageAllocation → Option (Nat × Interval × List PageAllocation)
  | [] => none
  | p :: ps =>
    match p.requestInterval size alignment with
    | some (iv, p') => some (0, iv, p' :: ps)
    | none =>
      match allocScan size alignment ps with
      | none => none
      | some (i, iv, ps') => some (i + 1, iv, p :: ps')

/-- Embeds `VulkanMemoryPool::alloc` (vulkan_memory_pool.cpp:162-195): scan the
existing pages; on miss create one page of `max size m_minPageAllocationSize`
bytes and carve from it (`none` would correspond to the C++
`std::optional::value()` throwing, which cannot happen on a fresh page). -/
def VulkanMemoryPool.alloc (pool : VulkanMemoryPool) (size alignment : Nat) :
    Option (Allocation × VulkanMemoryPool) :=
  match allocScan size alignment pool.m_pageAllocations with
  | some (i, iv, pages) =>
    some (⟨i, iv.m_begin, iv.m_end - iv.m_begin⟩, ⟨pool.m_minPageAllocationSize, pages⟩)
  | none =>
    match (PageAllocation.fresh (max size pool.m_minPageAllocationSize)).requestInterval
        size alignment with
    | none => none
    | some (iv, p') =>
      some (⟨pool.m_pageAllocations.length, iv.m_begin, iv.m_end - iv.m_begin⟩,
        ⟨pool.m_minPageAllocationSize, pool.m_pageAllocations ++ [p']⟩)

/-- Embeds `VulkanMemoryPool::free` (vulkan_memory_pool.cpp:197-204): return
the allocation's interval to the page it was carved from. -/
def VulkanMemoryPool.free (pool : VulkanMemoryPool) (a : Allocation) :
    Option VulkanMemoryPool :=
  match pool.m_pageAllocations.get? a.pageIdx with
  | none => none
  | some p =>
    match p.returnInterval ⟨a.m_devMemOffset, a.m_devMemOffset + a.m_size⟩ with
    | none => none
    | some p' => some ⟨pool.m_minPageAllocationSize, pool.m_pageAllocations.set a.pageIdx p'⟩

/-- Embeds `DeallocationContainer` (logical_device.cpp:34-42): the target frame
index plus an identifying tag standing for the owned resource handles. -/
structure DeallocationContainer where
  m_frameIndex : Nat
  resourceId : Nat
deriving DecidableEq, Repr

/-- Embeds `DeallocationContainer::operator<` (logical_device.cpp:41):
comparison on the target frame index alone. -/
def DeallocationContainer.lt (a b : DeallocationContainer) : Bool :=
  decide (a.m_frameIndex < b.m_frameIndex)

/-- Embeds `std::lower_bound` over the deallocation queue (the queue handed to
it is sorted, on which the binary search coincides with this linear scan). -/
def deallocLowerBound (d : DeallocationContainer) : List DeallocationContainer → Nat
  | [] => 0
  | x :: xs => if DeallocationContainer.lt x d then deallocLowerBound d xs + 1 else 0

/-- Embeds `LogicalDevice::scheduleForDeallocation(DeallocationContainer)`
(logical_device.cpp:258-263): insertion at the lower-bound position. -/
def scheduleForDeallocation (q : List DeallocationContainer) (d : DeallocationContainer) :
    List DeallocationContainer :=
  q.take (deallocLowerBound d q) ++ d :: q.drop (deallocLowerBound d q)

/-- Embeds the typed `scheduleForDeallocation` overloads
(logical_device.cpp:243-256): the target frame is
`m_frameIndex + numFramesToKeepAlive`. -/
def scheduleForDeallocationAt (q : List DeallocationContainer)
    (currentFrame numFramesToKeepAlive rid : Nat) : List DeallocationContainer :=
  scheduleForDeallocation q ⟨currentFrame + numFramesToKeepAlive, rid⟩

/-- Embeds the reclamation step at the end of `LogicalDevice::render`
(logical_device.cpp:469-474): walk from the front while the entry's target
frame is less than the current frame, then erase that prefix.  Returns the
released prefix and the remaining queue. -/
def advanceDeallocationQueue (q : List DeallocationContainer) (currentFrame : Nat) :
    List DeallocationContainer × List DeallocationContainer :=
  (q.takeWhile (fun d => decide (d.m_frameIndex < currentFrame)),
   q.dropWhile (fun d => decide (d.m_frameIndex < currentFrame)))

/-- Sortedness of the deallocation queue by target frame index. -/
def DeallocQueueSorted (q : List DeallocationContainer) : Prop :=
  q.Pairwise (fun a b => a.m_frameIndex ≤ b.m_frameIndex)

/-- Finds the value stored under a key in an association list (embeds
`std::unordered_map` lookup; key order is irrelevant to the per-key facts
proved here). -/
def assocFind {α β : Type} [DecidableEq α] : List (α × β) → α → Option β
  | [], _ => none
  | (k, v) :: rest, key => if k = key then some v else assocFind rest key

/-- Stores a value under a key in an association list, overwriting an existing
binding or appending a new one (embeds `std::unordered_map::operator[]`
assignment). -/
def assocSet {α β : Type} [DecidableEq α] : List (α × β) → α → β → List (α × β)
  | [], key, v => [(key, v)]
  | (k, w) :: rest, key, v =>
    if k = key then (k, v) :: rest else (k, w) :: assocSet rest key v

/-- Embeds `CommandBufferPool` (command_execution_unit.cpp:25-30): the
command-buffer array is represented by its length (buffers are identified by
their index in the array) together with the next index to hand out. -/
structure CommandBufferPool where
  m_commandBuffers : Nat
  m_nextCommandBufferIndex : Nat
deriving DecidableEq, Repr

/-- Identifies a `vk::CommandBuffer` handle: the (queue family, calling
thread) pool it was allocated from plus its index in that pool's array. -/
structure CommandBuffer where
  family : Nat
  thread : Nat
  index : Nat
deriving DecidableEq, Repr

/-- Embeds `CommandBufferInfo` (command_execution_unit.cpp:38-43); the
semaphore submit infos are identified by tags. -/
structure CommandBufferInfo where
  m_waitSemaphoreInfos : List Nat
  m_signalSemaphoreInfos : List Nat
deriving DecidableEq, Repr

/-- Embeds `CommandExecutionUnit` (command_execution_unit.hpp:41-48):
per-(queue family, thread) pools, per-handle wait/signal bookkeeping and the
per-family submission order lists. -/
structure CommandExecutionUnit where
  m_library : List ((Nat × Nat) × CommandBufferPool)
  m_commandBufferInfos : List (CommandBuffer × CommandBufferInfo)
  m_submitOrder : List (Nat × List CommandBuffer)
deriving DecidableEq, Repr

/-- A freshly constructed `CommandExecutionUnit`: empty maps. -/
def ceuInit : CommandExecutionUnit := ⟨[], [], []⟩

/-- Embeds `CommandExecutionUnit::requestCommandBufferUnguarded`
(command_execution_unit.cpp:100-127): lazily create the per-(family, thread)
pool; allocate one more buffer when the array size does not exceed the next
index; hand out the buffer at the next index and advance it; reset the
handle's info record; append the handle to the family's submission-order
list. -/
def CommandExecutionUnit.requestCommandBufferUnguarded (st : CommandExecutionUnit)
    (family thread : Nat) : CommandBuffer × CommandExecutionUnit :=
  let pool := (assocFind st.m_library (family, thread)).getD ⟨0, 0⟩
  let pool1 : CommandBufferPool :=
    if pool.m_commandBuffers ≤ pool.m_nextCommandBufferIndex then
      ⟨pool.m_commandBuffers + 1, pool.m_nextCommandBufferIndex⟩
    else pool
  let cb : CommandBuffer := ⟨family, thread, pool1.m_nextCommandBufferIndex⟩
  (cb,
    ⟨assocSet st.m_library (family, thread)
        ⟨pool1.m_commandBuffers, pool1.m_nextCommandBufferIndex + 1⟩,
      assocSet st.m_commandBufferInfos cb ⟨[], []⟩,
      assocSet st.m_submitOrder family ((assocFind st.m_submitOrder family).getD [] ++ [cb])⟩)

/-- Embeds `CommandExecutionUnit::waitForIdleAndReset`
(command_execution_unit.cpp:68-78): it waits on the per-family fences and
calls `vkResetCommandPool` on every per-thread pool.  Neither of those touches
any field modelled here — in particular `m_nextCommandBufferIndex` is left
unchanged, and `m_library`, `m_commandBufferInfos`, `m_submitOrder` are not
modified (the latter two are cleared in `submit`, not here). -/
def CommandExecutionUnit.waitForIdleAndReset (st : CommandExecutionUnit) :
    CommandExecutionUnit := st

/-- The batched submission generated for one queue family by
`CommandExecutionUnit::submit` (command_execution_unit.cpp:183-188): one
`vk::SubmitInfo2` per handle of the family's submission-order list, in list
order. -/
def CommandExecutionUnit.submitBatchFor (st : CommandExecutionUnit) (family : Nat) :
    List CommandBuffer :=
  (assocFind st.m_submitOrder family).getD []

/-- Embeds the state change of `CommandExecutionUnit::submit`
(command_execution_unit.cpp:191-192): per-frame bookkeeping is cleared. -/
def CommandExecutionUnit.submit (st : CommandExecutionUnit) : CommandExecutionUnit :=
  { st with m_submitOrder := [], m_commandBufferInfos := [] }

/-- Embeds `CommandExecutionUnit::pushWaits`
(command_execution_unit.cpp:129-143).  The returned `Bool` records whether the
error path (`LOGE("Unknown command buffer given.")` followed by `return`) was
taken. -/
def CommandExecutionUnit.pushWaits (st : CommandExecutionUnit) (cb : CommandBuffer)
    (waitSemaphoreInfos : List Nat) : CommandExecutionUnit × Bool :=
  if waitSemaphoreInfos.isEmpty then (st, false)
  else
    match assocFind st.m_commandBufferInfos cb with
    | none => (st, true)
    | some info =>
      ({ st with
          m_commandBufferInfos := assocSet st.m_commandBufferInfos cb
            ⟨info.m_waitSemaphoreInfos ++ waitSemaphoreInfos, info.m_signalSemaphoreInfos⟩ },
        false)

/-- Embeds `CommandExecutionUnit::pushSignals`
(command_execution_unit.cpp:150-164), mirroring `pushWaits`. -/
def CommandExecutionUnit.pushSignals (st : CommandExecutionUnit) (cb : CommandBuffer)
    (signalSemaphoreInfos : List Nat) : CommandExecutionUnit × Bool :=
  if signalSemaphoreInfos.isEmpty then (st, false)
  else
    match assocFind st.m_commandBufferInfos cb with
    | none => (st, true)
    | some info =>
      ({ st with
          m_commandBufferInfos := assocSet st.m_commandBufferInfos cb
            ⟨info.m_waitSemaphoreInfos, info.m_signalSemaphoreInfos ++ signalSemaphoreInfos⟩ },
        false)

/-- Runs a frame's sequence of `requestCommandBuffer` calls, given as
(queue family, calling thread) pairs; returns the final state and the issued
handles tagged with their queue family, in request order. -/
def processRequests (st : CommandExecutionUnit) :
    List (Nat × Nat) → CommandExecutionUnit × List (Nat × CommandBuffer)
  | [] => (st, [])
  | (family, thread) :: rest =>
    let r := st.requestCommandBufferUnguarded family thread
    let q := processRequests r.2 rest
    (q.1, (family, r.1) :: q.2)

/-- Embeds `BufferCopy` (vulkan_memory_object_uploader.cpp:26-32): staging
source buffer, destination buffer, destination offset, copy size and the
destination stage mask (buffers and masks are identified by tags). -/
structure BufferCopy where
  srcBuffer : Nat
  m_dstBuffer : Nat
  dstOffset : Nat
  size : Nat
  m_dstStageMask : Nat
deriving DecidableEq, Repr

/-- Embeds `vk::BufferMemoryBarrier2` with the fields
`VulkanMemoryObjectUploader::finish` fills, in constructor order. -/
structure BufferMemoryBarrier2 where
  srcStageMask : Nat
  srcAccessMask : Nat
  dstStageMask : Nat
  dstAccessMask : Nat
  srcQueueFamilyIndex : Nat
  dstQueueFamilyIndex : Nat
  buffer : Nat
  offset : Nat
  size : Nat
deriving DecidableEq, Repr

/-- Tag for `vk::PipelineStageFlagBits2::eCopy`. -/
def stageCopy : Nat := 1

/-- Tag for `vk::PipelineStageFlagBits2::eNone`. -/
def stageNone : Nat := 0

/-- Tag for `vk::AccessFlagBits2::eMemoryWrite`. -/
def accessMemoryWrite : Nat := 1

/-- Tag for `vk::AccessFlagBits2::eMemoryRead`. -/
def accessMemoryRead : Nat := 2

/-- Tag for `vk::AccessFlagBits2::eNone`. -/
def accessNone : Nat := 0

/-- The release-ownership barrier `finish` builds for one pending copy
(vulkan_memory_object_uploader.cpp:75-77): transfer family to graphics
family over the destination buffer. -/
def releaseBarrierFor (transferQF graphicsQF : Nat) (c : BufferCopy) : BufferMemoryBarrier2 :=
  ⟨stageCopy, accessMemoryWrite, stageNone, accessNone, transferQF, graphicsQF,
    c.m_dstBuffer, 0, c.size⟩

/-- The acquire-ownership barrier `finish` builds for one pending copy
(vulkan_memory_object_uploader.cpp:78-81), with the queue family fields
exactly as the code passes them: `srcQueueFamilyIndex` receives the graphics
family and `dstQueueFamilyIndex` the transfer family. -/
def acquireBarrierFor (transferQF graphicsQF : Nat) (c : BufferCopy) : BufferMemoryBarrier2 :=
  ⟨stageNone, accessNone, c.m_dstStageMask, accessMemoryRead, graphicsQF, transferQF,
    c.m_dstBuffer, 0, c.size⟩

/-- A command recorded on a command buffer by `finish`. -/
inductive RecordedCommand
  | copyBuffer (src dst dstOffset size : Nat)
  | pipelineBarrier2 (barriers : List BufferMemoryBarrier2)
deriving DecidableEq, Repr

/-- Embeds `VulkanMemoryObjectUploader::finish`
(vulkan_memory_object_uploader.cpp:67-93): first one release and one acquire
barrier is built per pending copy; then, for each pending copy, the copy is
recorded on the transfer command buffer followed by a `pipelineBarrier2` call
carrying the whole `releases` vector, and a `pipelineBarrier2` call carrying
the whole `acquisitions` vector is recorded on the graphics command buffer.
Returns the transfer and graphics command streams. -/
def uploaderFinish (pendingCopies : List BufferCopy) (transferQF graphicsQF : Nat) :
    List RecordedCommand × List RecordedCommand :=
  let releases := pendingCopies.map (releaseBarrierFor transferQF graphicsQF)
  let acquisitions := pendingCopies.map (acquireBarrierFor transferQF graphicsQF)
  (pendingCopies.flatMap fun c =>
      [RecordedCommand.copyBuffer c.srcBuffer c.m_dstBuffer c.dstOffset c.size,
        RecordedCommand.pipelineBarrier2 releases],
    pendingCopies.map fun _ => RecordedCommand.pipelineBarrier2 acquisitions)

/-- Counts how many times a given barrier is recorded in a command stream,
summing over all `pipelineBarrier2` commands. -/
def countBarrier (b : BufferMemoryBarrier2) (cmds : List RecordedCommand) : Nat :=
  (cmds.map fun cmd =>
    match cmd with
    | RecordedCommand.pipelineBarrier2 bs => bs.count b
    | _ => 0).sum

/-- Embeds `RenderThread::Status` (render_thread.hpp:46-52). -/
inductive RtStatus
  | created
  | recording
  | waiting
  | interrupted
deriving DecidableEq, Repr

/-- Resting points of the worker thread spawned by `RenderThread::start`
(render_thread.cpp:40-52).  The worker holds `m_mtx` from the moment it
wakes until it re-enters `m_cv.wait`, so each loop iteration runs as one
atomic step and the worker rests in one of three places: before its first
lock acquisition, inside `m_cv.wait`, or after leaving the loop. -/
inductive WorkerPc
  | atStart
  | inWait
  | exited
deriving DecidableEq, Repr

/-- Position of the orchestrator inside one
`recordCommandsAsync` / `finishCommandRecording` cycle
(render_thread.cpp:55-71). -/
inductive OrchPc
  | idle
  | asked
  | finWaiting
  | finished
deriving DecidableEq, Repr

/-- Joint state of one `RenderThread`: the shared `m_status`, both positions,
and how many times the `recordCommands` callback has been invoked.  Each
invocation also returns within the same atomic step, since the worker holds
the mutex throughout the call. -/
structure RtState where
  m_status : RtStatus
  wpc : WorkerPc
  opc : OrchPc
  recordCalls : Nat
deriving DecidableEq, Repr

/-- One iteration of the worker loop body (render_thread.cpp:42-51), executed
with the mutex held: exit the loop if the status is `INTERRUPTED`; otherwise
invoke `recordCommands` when the status is `RECORDING`; then set the status to
`WAITING`, notify, and re-enter `m_cv.wait`. -/
def workerBody (s : RtState) : RtState :=
  if s.m_status = RtStatus.interrupted then { s with wpc := WorkerPc.exited }
  else if s.m_status = RtStatus.recording then
    { s with
        m_status := RtStatus.waiting
        wpc := WorkerPc.inWait
        recordCalls := s.recordCalls + 1 }
  else { s with m_status := RtStatus.waiting, wpc := WorkerPc.inWait }

/-- Worker steps enabled in a state: from `atStart` the thread acquires the
mutex and runs the loop body; from `inWait` it runs again only once the
`m_cv.wait` predicate `m_status != WAITING` holds (the predicate-gated wait
makes spurious wakeups unobservable); after exiting there is no step. -/
def workerSteps (s : RtState) : List RtState :=
  match s.wpc with
  | WorkerPc.atStart => [workerBody s]
  | WorkerPc.inWait => if s.m_status = RtStatus.waiting then [] else [workerBody s]
  | WorkerPc.exited => []

/-- Orchestrator steps of one cycle, each holding the mutex:
`recordCommandsAsync` sets the status to `RECORDING` and notifies
(render_thread.cpp:55-62); `finishCommandRecording` returns immediately
unless the status is `RECORDING`, in which case it waits on the predicate
`m_status == WAITING` before returning (render_thread.cpp:64-71). -/
def orchSteps (s : RtState) : List RtState :=
  match s.opc with
  | OrchPc.idle => [{ s with m_status := RtStatus.recording, opc := OrchPc.asked }]
  | OrchPc.asked =>
    if s.m_status = RtStatus.recording then [{ s with opc := OrchPc.finWaiting }]
    else [{ s with opc := OrchPc.finished }]
  | OrchPc.finWaiting =>
    if s.m_status = RtStatus.waiting then [{ s with opc := OrchPc.finished }] else []
  | OrchPc.finished => []

/-- The interleaving semantics: either thread takes its next atomic step. -/
def rtNext (s : RtState) : List RtState := workerSteps s ++ orchSteps s

/-- Quiescent state between recording cycles: the worker parked in `m_cv.wait`
with status `WAITING`, the orchestrator about to start a cycle, and the
callback counter zeroed for the cycle.  A completed cycle ends in this same
shape again, so consecutive cycles compose. -/
def rtInit : RtState := ⟨RtStatus.waiting, WorkerPc.inWait, OrchPc.idle, 0⟩

/-- Reachability under the interleaving semantics from the quiescent state. -/
def RtReachable (s : RtState) : Prop :=
  Relation.ReflTransGen (fun a b => b ∈ rtNext a) rtInit s

/-- Every state reachable from `rtInit`, found by exhausting `rtNext`. -/
def rtClosure : List RtState :=
  [⟨RtStatus.waiting, WorkerPc.inWait, OrchPc.idle, 0⟩,
    ⟨RtStatus.recording, WorkerPc.inWait, OrchPc.asked, 0⟩,
    ⟨RtStatus.waiting, WorkerPc.inWait, OrchPc.asked, 1⟩,
    ⟨RtStatus.recording, WorkerPc.inWait, OrchPc.finWaiting, 0⟩,
    ⟨RtStatus.waiting, WorkerPc.inWait, OrchPc.finWaiting, 1⟩,
    ⟨RtStatus.waiting, WorkerPc.inWait, OrchPc.finished, 1⟩]

/-- C1: the claimed all-sequences invariant fails on the code.  On the page
trace `allocate 50` / `allocate 50` / `release [0,50)` / `release [50,100)`
(page size 100) the last release finds `lower_bound == end()` on the non-empty
free list `[[0,50)]` and dereferences the end iterator
(vulkan_memory_pool.cpp:246-248), so the post-state of the fourth call is
undefined — the total embedding returns `none` — instead of the fully
coalesced list `[[0,100)]` the invariant (and the page destructor's own
assert, vulkan_memory_pool.cpp:143-144) requires. -/
theorem c1_page_invariant_broken_by_oob_release :
    (((PageAllocation.fresh 100).requestInterval 50 1).bind fun r1 =>
      (r1.2.requestInterval 50 1).bind fun r2 =>
      (r2.2.returnInterval r1.1).bind fun p3 =>
      p3.returnInterval r2.1) = none := by decide

/-- C3: coalescing of two adjacent released regions holds in one release order
but not the other.  With live regions `[0,32)` and `[32,64)` on a page whose
free list is empty, releasing `[32,64)` then `[0,32)` coalesces to the single
interval `[0,64)`; releasing `[0,32)` then `[32,64)` — the case the claim
singles out, where the second released interval sorts after every interval in
the free list — dereferences the end iterator
(vulkan_memory_pool.cpp:246-248), so it does not produce the merged interval
the claim requires. -/
theorem c3_coalescing_fails_in_one_release_order :
    (returnIntervalCore [] ⟨32, 64⟩ = some [⟨32, 64⟩] ∧
      returnIntervalCore [⟨32, 64⟩] ⟨0, 32⟩ = some [⟨0, 64⟩]) ∧
    (returnIntervalCore [] ⟨0, 32⟩ = some [⟨0, 32⟩] ∧
      returnIntervalCore [⟨0, 32⟩] ⟨32, 64⟩ = none) := by decide

/-- C10: the out-of-bounds case is hit, not avoided.  On the reachable page
trace `allocate 32` / `allocate 16` / `release [0,32)` / `release [32,48)`
(page size 48) the final release's interval sorts after the whole non-empty
free list `[[0,32)]`, `lower_bound` returns the past-the-end position 1, and
the element the code then reads at that position is `none` in the total
embedding, making the call's result `none`. -/
theorem c10_release_past_end_reads_out_of_bounds :
    lowerBound ⟨32, 48⟩ [⟨0, 32⟩] = 1 ∧
    ([(⟨0, 32⟩ : Interval)].get? 1 = none) ∧
    returnIntervalCore [⟨0, 32⟩] ⟨32, 48⟩ = none ∧
    (((PageAllocation.fresh 48).requestInterval 32 1).bind fun r1 =>
      (r1.2.requestInterval 16 1).bind fun r2 =>
      (r2.2.returnInterval r1.1).bind fun p3 =>
      p3.returnInterval r2.1) = none := by decide

theorem mem_take_deallocLowerBound (d : DeallocationContainer) :
    ∀ (q : List DeallocationContainer), ∀ x ∈ q.take (deallocLowerBound d q),
      x.m_frameIndex < d.m_frameIndex := by
  intro q
  induction q with
  | nil => intro x hx; simp at hx
  | cons a q ih =>
    intro x hx
    by_cases h : DeallocationContainer.lt a d = true
    · rw [deallocLowerBound, if_pos h] at hx
      rw [List.take_succ_cons] at hx
      rcases List.mem_cons.mp hx with h1 | h1
      · subst h1
        simpa [DeallocationContainer.lt] using h
      · exact ih x h1
    · rw [deallocLowerBound, if_neg h] at hx
      simp at hx

theorem mem_drop_deallocLowerBound (d : DeallocationContainer) :
    ∀ (q : List DeallocationContainer), DeallocQueueSorted q →
      ∀ x ∈ q.drop (deallocLowerBound d q), d.m_frameIndex ≤ x.m_frameIndex := by
  intro q
  induction q with
  | nil => intro _ x hx; simp at hx
  | cons a q ih =>
    intro hq x hx
    rcases List.pairwise_cons.mp hq with ⟨ha, hq'⟩
    by_cases h : DeallocationContainer.lt a d = true
    · rw [deallocLowerBound, if_pos h] at hx
      rw [List.drop_succ_cons] at hx
      exact ih hq' x hx
    · rw [deallocLowerBound, if_neg h] at hx
      have hda : d.m_frameIndex ≤ a.m_frameIndex := by
        simpa [DeallocationContainer.lt] using h
      rw [List.drop_zero] at hx
      rcases List.mem_cons.mp hx with h1 | h1
      · subst h1; exact hda
      · exact le_trans hda (ha x h1)

theorem mem_takeWhile_of_prefix {α : Type} (p : α → Bool) (e : α) :
    ∀ (l1 l2 : List α), (∀ x ∈ l1, p x = true) → p e = true →
      e ∈ (l1 ++ e :: l2).takeWhile p := by
  intro l1
  induction l1 with
  | nil =>
    intro l2 _ he
    rw [List.nil_append, List.takeWhile_cons, if_pos he]
    exact List.mem_cons_self e _
  | cons a l1 ih =>
    intro l2 hall he
    rw [List.cons_append, List.takeWhile_cons, if_pos (hall a (List.mem_cons_self a l1))]
    exact List.mem_cons_of_mem a (ih l2 (fun x hx => hall x (List.mem_cons_of_mem a hx)) he)

/-- C2: reclamation gating holds.  Scheduling a resource with
`framesToKeepAlive = k` while the frame index is `F` inserts the entry with
target frame `F + k` at its sorted position; the queue stays sorted; the
reclamation step at a frame boundary splits the queue into a released prefix
and the remaining suffix; an advance with current frame `f ≤ F + k` does not
release the entry, and an advance with `f > F + k` does. -/
theorem c2_reclamation_gating (q : List DeallocationContainer) (F k rid f : Nat)
    (hq : DeallocQueueSorted q)
    (hfresh : rid ∉ q.map DeallocationContainer.resourceId) :
    DeallocQueueSorted (scheduleForDeallocationAt q F k rid) ∧
    (advanceDeallocationQueue (scheduleForDeallocationAt q F k rid) f).1 ++
        (advanceDeallocationQueue (scheduleForDeallocationAt q F k rid) f).2 =
      scheduleForDeallocationAt q F k rid ∧
    (f ≤ F + k →
      (⟨F + k, rid⟩ : DeallocationContainer) ∉
          (advanceDeallocationQueue (scheduleForDeallocationAt q F k rid) f).1 ∧
        (⟨F + k, rid⟩ : DeallocationContainer) ∈
          (advanceDeallocationQueue (scheduleForDeallocationAt q F k rid) f).2) ∧
    (F + k < f →
      (⟨F + k, rid⟩ : DeallocationContainer) ∈
          (advanceDeallocationQueue (scheduleForDeallocationAt q F k rid) f).1 ∧
        (⟨F + k, rid⟩ : DeallocationContainer) ∉
          (advanceDeallocationQueue (scheduleForDeallocationAt q F k rid) f).2) := by
  set e : DeallocationContainer := ⟨F + k, rid⟩ with he
  have hmemq : e ∉ q := by
    intro hmem
    exact hfresh (List.mem_map.mpr ⟨e, hmem, rfl⟩)
  set lb := deallocLowerBound e q with hlb
  have hqeq : scheduleForDeallocationAt q F k rid = q.take lb ++ e :: q.drop lb := rfl
  have htake : ∀ x ∈ q.take lb, x.m_frameIndex < F + k :=
    fun x hx => mem_take_deallocLowerBound e q x hx
  have hdrop : ∀ x ∈ q.drop lb, F + k ≤ x.m_frameIndex :=
    fun x hx => mem_drop_deallocLowerBound e q hq x hx
  have hsorted : DeallocQueueSorted (scheduleForDeallocationAt q F k rid) := by
    rw [hqeq]
    rw [DeallocQueueSorted, List.pairwise_append]
    refine ⟨hq.sublist (List.take_sublist lb q), ?_, ?_⟩
    · rw [List.pairwise_cons]
      exact ⟨fun x hx => hdrop x hx, hq.sublist (List.drop_sublist lb q)⟩
    · intro a ha b hb
      rcases List.mem_cons.mp hb with h1 | h1
      · subst h1; exact le_of_lt (htake a ha)
      · exact le_trans (le_of_lt (htake a ha)) (hdrop b h1)
  refine ⟨hsorted, List.takeWhile_append_dropWhile _ _, ?_, ?_⟩
  · intro hf
    have hnotrel : e ∉ (advanceDeallocationQueue (scheduleForDeallocationAt q F k rid) f).1 := by
      intro hmem
      have := List.mem_takeWhile_imp hmem
      simp only [he, decide_eq_true_eq] at this
      omega
    refine ⟨hnotrel, ?_⟩
    have hmem' : e ∈ scheduleForDeallocationAt q F k rid := by
      rw [hqeq]
      exact List.mem_append.mpr (Or.inr (List.mem_cons_self e _))
    rcases List.mem_append.mp
        (by rw [List.takeWhile_append_dropWhile]; exact hmem' :
          e ∈ (scheduleForDeallocationAt q F k rid).takeWhile
                (fun d => decide (d.m_frameIndex < f)) ++
              (scheduleForDeallocationAt q F k rid).dropWhile
                (fun d => decide (d.m_frameIndex < f))) with h1 | h1
    · exact absurd h1 hnotrel
    · exact h1
  · intro hf
    have hrel : e ∈ (advanceDeallocationQueue (scheduleForDeallocationAt q F k rid) f).1 := by
      show e ∈ (scheduleForDeallocationAt q F k rid).takeWhile
        (fun d => decide (d.m_frameIndex < f))
      rw [hqeq]
      refine mem_takeWhile_of_prefix _ e (q.take lb) (q.drop lb) ?_ ?_
      · intro x hx
        simp only [decide_eq_true_eq]
        exact lt_trans (htake x hx) hf
      · simp only [he, decide_eq_true_eq]
        exact hf
    refine ⟨hrel, ?_⟩
    intro hrem
    have hcount1 : (scheduleForDeallocationAt q F k rid).count e = 1 := by
      rw [hqeq, List.count_append, List.count_cons_self]
      have h1 : (q.take lb).count e = 0 :=
        Nat.eq_zero_of_le_zero (le_trans ((List.take_sublist lb q).count_le e)
          (by rw [List.count_eq_zero_of_not_mem hmemq]))
      have h2 : (q.drop lb).count e = 0 :=
        Nat.eq_zero_of_le_zero (le_trans ((List.drop_sublist lb q).count_le e)
          (by rw [List.count_eq_zero_of_not_mem hmemq]))
      omega
    have hsplit : (advanceDeallocationQueue (scheduleForDeallocationAt q F k rid) f).1.count e +
        (advanceDeallocationQueue (scheduleForDeallocationAt q F k rid) f).2.count e = 1 := by
      rw [← List.count_append]
      rw [show (advanceDeallocationQueue (scheduleForDeallocationAt q F k rid) f).1 ++
          (advanceDeallocationQueue (scheduleForDeallocationAt q F k rid) f).2 =
          scheduleForDeallocationAt q F k rid from List.takeWhile_append_dropWhile _ _]
      exact hcount1
    have hc1 : 1 ≤ (advanceDeallocationQueue (scheduleForDeallocationAt q F k rid) f).1.count e :=
      List.count_pos_iff.mpr hrel
    have hc2 : 1 ≤ (advanceDeallocationQueue (scheduleForDeallocationAt q F k rid) f).2.count e :=
      List.count_pos_iff.mpr hrem
    omega

/-- C2 witness: a concrete instantiation — scheduling with target frame
`2 + 1 = 3` into the queue `[⟨1, 0⟩]` and advancing with current frame 5
releases the scheduled entry. -/
theorem c2_reclamation_gating_witness :
    (⟨3, 7⟩ : DeallocationContainer) ∈
      (advanceDeallocationQueue (scheduleForDeallocationAt [⟨1, 0⟩] 2 1 7) 5).1 := by
  have h := c2_reclamation_gating [⟨1, 0⟩] 2 1 7 5 (by simp [DeallocQueueSorted]) (by decide)
  exact (h.2.2.2 (by norm_num)).1

theorem assocFind_assocSet_self {α β : Type} [DecidableEq α] (l : List (α × β)) (k : α) (v : β) :
    assocFind (assocSet l k v) k = some v := by
  induction l with
  | nil => simp [assocSet, assocFind]
  | cons p rest ih =>
    obtain ⟨k', w⟩ := p
    by_cases h : k' = k
    · subst h; simp [assocSet, assocFind]
    · simp [assocSet, assocFind, h, ih]

theorem assocFind_assocSet_ne {α β : Type} [DecidableEq α] (l : List (α × β)) (k k' : α) (v : β)
    (h : k ≠ k') : assocFind (assocSet l k v) k' = assocFind l k' := by
  induction l with
  | nil => simp [assocSet, assocFind, h]
  | cons p rest ih =>
    obtain ⟨k0, w⟩ := p
    by_cases h0 : k0 = k
    · subst h0; simp [assocSet, assocFind, h]
    · simp [assocSet, assocFind, h0, ih]

theorem submitBatchFor_request (st : CommandExecutionUnit) (f t fam : Nat) :
    ((st.requestCommandBufferUnguarded f t).2).submitBatchFor fam =
      if f = fam then
        st.submitBatchFor fam ++ [(st.requestCommandBufferUnguarded f t).1]
      else st.submitBatchFor fam := by
  by_cases hf : f = fam
  · subst hf
    simp [CommandExecutionUnit.requestCommandBufferUnguarded,
      CommandExecutionUnit.submitBatchFor, assocFind_assocSet_self]
  · simp [CommandExecutionUnit.requestCommandBufferUnguarded,
      CommandExecutionUnit.submitBatchFor, assocFind_assocSet_ne _ _ _ _ hf, hf]

theorem submitBatchFor_processRequests (rs : List (Nat × Nat)) :
    ∀ (st : CommandExecutionUnit) (fam : Nat),
      ((processRequests st rs).1).submitBatchFor fam =
        st.submitBatchFor fam ++
          ((processRequests st rs).2.filter (fun p => p.1 = fam)).map Prod.snd := by
  induction rs with
  | nil => intro st fam; simp [processRequests]
  | cons r rs ih =>
    intro st fam
    obtain ⟨f, t⟩ := r
    simp only [processRequests]
    rw [ih]
    by_cases hf : f = fam
    · subst hf
      rw [submitBatchFor_request, if_pos rfl]
      simp
    · rw [submitBatchFor_request, if_neg hf]
      simp [hf]

/-- C5: submission order is preserved.  After any sequence of
`requestCommandBuffer` calls on a fresh execution unit, the batched submission
that `submit()` generates for a queue family is exactly the handles issued for
that family, in request (insertion) order — so a handle requested earlier is
listed before one requested later on the same family. -/
theorem c5_submission_order_preserved (rs : List (Nat × Nat)) (fam : Nat) :
    ((processRequests ceuInit rs).1).submitBatchFor fam =
      ((processRequests ceuInit rs).2.filter (fun p => p.1 = fam)).map Prod.snd := by
  have h := submitBatchFor_processRequests rs ceuInit fam
  simpa [ceuInit, CommandExecutionUnit.submitBatchFor, assocFind] using h

/-- C7: command buffers are not recycled after `waitForIdleAndReset`.  Frame 1
performs a single request on (family 0, thread 0), receiving buffer index 0;
after `submit` and `waitForIdleAndReset`, frame 2's single request allocates a
second buffer and returns index 1 instead of reusing index 0 — the per-frame
request count (one) never exceeded what was allocated before, yet the pool has
grown to two buffers, because `m_nextCommandBufferIndex` is never reset. -/
theorem c7_command_buffers_not_recycled :
    (ceuInit.requestCommandBufferUnguarded 0 0).1 = ⟨0, 0, 0⟩ ∧
    ((((ceuInit.requestCommandBufferUnguarded 0 0).2.submit).waitForIdleAndReset).requestCommandBufferUnguarded 0 0).1 = ⟨0, 0, 1⟩ ∧
    assocFind (((((ceuInit.requestCommandBufferUnguarded 0 0).2.submit).waitForIdleAndReset).requestCommandBufferUnguarded 0 0).2).m_library (0, 0) =
      some ⟨2, 2⟩ := by decide

/-- C9: pushing semaphore operations onto an unknown handle is a logged no-op.
If the handle has no info record and the semaphore list is non-empty, both
`pushWaits` and `pushSignals` take the error path and return the state
entirely unchanged — wait lists, signal lists, submission order and pools
included. -/
theorem c9_push_unknown_handle_is_noop (st : CommandExecutionUnit) (cb : CommandBuffer)
    (sems : List Nat) (hcb : assocFind st.m_commandBufferInfos cb = none) (hs : sems ≠ []) :
    st.pushWaits cb sems = (st, true) ∧ st.pushSignals cb sems = (st, true) := by
  have hne : sems.isEmpty = false := by
    cases sems with
    | nil => exact absurd rfl hs
    | cons a l => rfl
  constructor
  · simp [CommandExecutionUnit.pushWaits, hne, hcb]
  · simp [CommandExecutionUnit.pushSignals, hne, hcb]

/-- C9 witness: a concrete unknown handle on a fresh unit with one semaphore
operation. -/
theorem c9_push_unknown_handle_is_noop_witness :
    ceuInit.pushWaits ⟨0, 0, 0⟩ [1] = (ceuInit, true) ∧
      ceuInit.pushSignals ⟨0, 0, 0⟩ [1] = (ceuInit, true) :=
  c9_push_unknown_handle_is_noop ceuInit ⟨0, 0, 0⟩ [1] (by decide) (by decide)

/-- C6: the per-copy ownership barrier count is wrong for more than one
pending copy.  With a single pending copy, `finish` records its release and
acquire barriers exactly once; but with two pending copies each copy's
release barrier is recorded twice on the transfer command buffer and each
copy's acquire barrier twice on the graphics command buffer, because the
`pipelineBarrier2` calls sit inside the per-copy loop yet pass the entire
barrier vectors (vulkan_memory_object_uploader.cpp:83-89). -/
theorem c6_ownership_barriers_duplicated :
    (countBarrier (releaseBarrierFor 1 0 ⟨0, 10, 0, 64, 7⟩)
        (uploaderFinish [⟨0, 10, 0, 64, 7⟩] 1 0).1 = 1 ∧
      countBarrier (acquireBarrierFor 1 0 ⟨0, 10, 0, 64, 7⟩)
        (uploaderFinish [⟨0, 10, 0, 64, 7⟩] 1 0).2 = 1) ∧
    (countBarrier (releaseBarrierFor 1 0 ⟨0, 10, 0, 64, 7⟩)
        (uploaderFinish [⟨0, 10, 0, 64, 7⟩, ⟨1, 11, 0, 64, 7⟩] 1 0).1 = 2 ∧
      countBarrier (acquireBarrierFor 1 0 ⟨0, 10, 0, 64, 7⟩)
        (uploaderFinish [⟨0, 10, 0, 64, 7⟩, ⟨1, 11, 0, 64, 7⟩] 1 0).2 = 2) := by decide

theorem rtClosure_invariant : ∀ s, RtReachable s → s ∈ rtClosure := by
  intro s h
  induction h with
  | refl => decide
  | tail h1 h2 ih =>
    exact (by decide : ∀ a ∈ rtClosure, ∀ b ∈ rtNext a, b ∈ rtClosure) _ ih _ h2

/-- C8: the rendezvous is exact and interruption is final.  First, in every
interleaving of the worker loop with one `recordCommandsAsync` followed by
`finishCommandRecording`, every state in which `finishCommandRecording` has
returned has the callback invoked exactly once and fully returned, with the
worker parked back in `m_cv.wait` and the status `WAITING` (so cycles
compose).  Second, from any state whose status is `INTERRUPTED`, the worker's
only step exits the loop without invoking the callback and without changing
the status, and that exit step is enabled when the worker is parked in
`m_cv.wait`. -/
theorem c8_rendezvous_exactly_once_and_interrupt_final :
    (∀ s, RtReachable s → s.opc = OrchPc.finished →
      s.recordCalls = 1 ∧ s.wpc = WorkerPc.inWait ∧ s.m_status = RtStatus.waiting) ∧
    (∀ s : RtState, s.m_status = RtStatus.interrupted →
      (s.wpc = WorkerPc.inWait → workerSteps s ≠ []) ∧
      ∀ s' ∈ workerSteps s, s'.wpc = WorkerPc.exited ∧ s'.recordCalls = s.recordCalls ∧
        s'.m_status = RtStatus.interrupted) := by
  constructor
  · intro s hs hopc
    have hmem := rtClosure_invariant s hs
    exact (by decide :
      ∀ s ∈ rtClosure, s.opc = OrchPc.finished →
        s.recordCalls = 1 ∧ s.wpc = WorkerPc.inWait ∧ s.m_status = RtStatus.waiting) s hmem hopc
  · intro s hstat
    obtain ⟨status, wpc, opc, n⟩ := s
    cases hstat
    constructor
    · intro hw
      cases hw
      simp [workerSteps]
    · intro s' hs'
      cases wpc <;> simp [workerSteps, workerBody] at hs' <;> subst hs' <;>
        simp [workerBody]

/-- C8 witness: the state in which `finishCommandRecording` has returned after
the interleaving async / worker-records / finish is reachable, and the
theorem yields its exact-once facts; from an interrupted waiting state the
worker's exit step is enabled. -/
theorem c8_rendezvous_witness :
    ((⟨RtStatus.waiting, WorkerPc.inWait, OrchPc.finished, 1⟩ : RtState).recordCalls = 1 ∧
      (⟨RtStatus.waiting, WorkerPc.inWait, OrchPc.finished, 1⟩ : RtState).wpc = WorkerPc.inWait ∧
      (⟨RtStatus.waiting, WorkerPc.inWait, OrchPc.finished, 1⟩ : RtState).m_status =
        RtStatus.waiting) ∧
    workerSteps ⟨RtStatus.interrupted, WorkerPc.inWait, OrchPc.idle, 0⟩ ≠ [] := by
  have h1 : RtReachable ⟨RtStatus.recording, WorkerPc.inWait, OrchPc.asked, 0⟩ :=
    Relation.ReflTransGen.single (by decide)
  have h2 : RtReachable ⟨RtStatus.waiting, WorkerPc.inWait, OrchPc.asked, 1⟩ :=
    h1.tail (by decide)
  have h3 : RtReachable ⟨RtStatus.waiting, WorkerPc.inWait, OrchPc.finished, 1⟩ :=
    h2.tail (by decide)
  refine ⟨c8_rendezvous_exactly_once_and_interrupt_final.1 _ h3 rfl, ?_⟩
  exact (c8_rendezvous_exactly_once_and_interrupt_final.2
    ⟨RtStatus.interrupted, WorkerPc.inWait, OrchPc.idle, 0⟩ rfl).1 rfl

theorem aligned_mod_eq_zero (b al : Nat) (h : 0 < al) :
    (b + (al - b % al) % al) % al = 0 := by
  rcases Nat.eq_zero_or_pos (b % al) with h0 | hpos
  · rw [h0, Nat.sub_zero, Nat.mod_self, Nat.add_zero]
    exact h0
  · have hlt : b % al < al := Nat.mod_lt b h
    have h1 : (al - b % al) % al = al - b % al := Nat.mod_eq_of_lt (by omega)
    rw [h1, Nat.add_mod, h1]
    rw [show b % al + (al - b % al) = al from by omega, Nat.mod_self]

theorem requestIntervalCore_shape (size al : Nat) :
    ∀ (l l' : List Interval) (iv : Interval),
      requestIntervalCore size al l = some (iv, l') →
      iv.m_end = iv.m_begin + size ∧ (0 < al → iv.m_begin % al = 0) := by
  intro l
  induction l with
  | nil => intro l' iv h; simp [requestIntervalCore] at h
  | cons interval rest ih =>
    intro l' iv h
    simp only [requestIntervalCore] at h
    split at h
    · split at h
      · simp only [Option.some.injEq, Prod.mk.injEq] at h
        obtain ⟨hiv, -⟩ := h
        subst hiv
        exact ⟨rfl, fun hal => aligned_mod_eq_zero _ _ hal⟩
      · split at h
        · simp only [Option.some.injEq, Prod.mk.injEq] at h
          obtain ⟨hiv, -⟩ := h
          subst hiv
          exact ⟨rfl, fun hal => aligned_mod_eq_zero _ _ hal⟩
        · split at h
          · simp only [Option.some.injEq, Prod.mk.injEq] at h
            obtain ⟨hiv, -⟩ := h
            subst hiv
            exact ⟨rfl, fun hal => aligned_mod_eq_zero _ _ hal⟩
          · simp only [Option.some.injEq, Prod.mk.injEq] at h
            obtain ⟨hiv, -⟩ := h
            subst hiv
            exact ⟨rfl, fun hal => aligned_mod_eq_zero _ _ hal⟩
    · split at h
      · exact Option.noConfusion h
      · rename_i iv0 rest0 heq
        simp only [Option.some.injEq, Prod.mk.injEq] at h
        obtain ⟨hiv, -⟩ := h
        subst hiv
        exact ih _ _ heq

theorem allocScan_shape (size al : Nat) :
    ∀ (ps : List PageAllocation) (i : Nat) (iv : Interval) (ps' : List PageAllocation),
      allocScan size al ps = some (i, iv, ps') →
      iv.m_end = iv.m_begin + size ∧ (0 < al → iv.m_begin % al = 0) := by
  intro ps
  induction ps with
  | nil => intro i iv ps' h; simp [allocScan] at h
  | cons p rest ih =>
    intro i iv ps' h
    simp only [allocScan] at h
    split at h
    · rename_i iv0 p0 heq
      simp only [Option.some.injEq, Prod.mk.injEq] at h
      obtain ⟨-, hiv, -⟩ := h
      subst hiv
      simp only [PageAllocation.requestInterval, Option.map_eq_some'] at heq
      obtain ⟨⟨iv1, fr⟩, hcore, hmap⟩ := heq
      simp only [Prod.mk.injEq] at hmap
      obtain ⟨hiv1, -⟩ := hmap
      subst hiv1
      exact requestIntervalCore_shape size al _ _ _ hcore
    · rename_i heq
      split at h
      · exact Option.noConfusion h
      · rename_i i0 iv0 ps0 heq2
        simp only [Option.some.injEq, Prod.mk.injEq] at h
        obtain ⟨-, hiv, -⟩ := h
        subst hiv
        exact ih _ _ _ heq2

theorem requestIntervalCore_freshPage (size pageSize al : Nat) (h : size ≤ pageSize) :
    requestIntervalCore size al [⟨0, pageSize⟩] =
      some (⟨0, size⟩, if size = pageSize then [] else [⟨size, pageSize⟩]) := by
  by_cases hsz : size = pageSize
  · subst hsz
    simp [requestIntervalCore, Nat.zero_mod, Nat.sub_zero, Nat.mod_self]
  · simp [requestIntervalCore, Nat.zero_mod, Nat.sub_zero, Nat.mod_self, hsz, h]

/-- C4: the allocation contract holds.  First, every successful `alloc(size,
alignment)` with positive alignment returns a region of byte length exactly
`size` whose offset is divisible by `alignment` (the region comes from the
first fitting free interval scanning pages in creation order, which is how
`allocScan` is defined).  Second, when no existing page fits, exactly one new
page of size `max size m_minPageAllocationSize` is appended and the region is
carved at its start (offset 0).  Third, the spec's end-to-end scenario: a
4096-byte/256-aligned request on an empty pool (default minimum page size
`4 << 20`) creates one page of 4194304 ≥ 4096 bytes with the region at offset
0; after releasing it, a 2048-byte/512-aligned request reuses the same page at
offset 0 with no second page created. -/
theorem c4_alloc_contract :
    (∀ (pool : VulkanMemoryPool) (size alignment : Nat) (a : Allocation)
        (pool' : VulkanMemoryPool), 0 < alignment →
        pool.alloc size alignment = some (a, pool') →
        a.m_size = size ∧ a.m_devMemOffset % alignment = 0) ∧
    (∀ (pool : VulkanMemoryPool) (size alignment : Nat),
        allocScan size alignment pool.m_pageAllocations = none →
        ∃ p' : PageAllocation, p'.m_size = max size pool.m_minPageAllocationSize ∧
          pool.alloc size alignment =
            some (⟨pool.m_pageAllocations.length, 0, size⟩,
              ⟨pool.m_minPageAllocationSize, pool.m_pageAllocations ++ [p']⟩)) ∧
    (VulkanMemoryPool.alloc ⟨4194304, []⟩ 4096 256 =
        some (⟨0, 0, 4096⟩, ⟨4194304, [⟨4194304, [⟨4096, 4194304⟩]⟩]⟩) ∧
      VulkanMemoryPool.free ⟨4194304, [⟨4194304, [⟨4096, 4194304⟩]⟩]⟩ ⟨0, 0, 4096⟩ =
        some ⟨4194304, [⟨4194304, [⟨0, 4194304⟩]⟩]⟩ ∧
      VulkanMemoryPool.alloc ⟨4194304, [⟨4194304, [⟨0, 4194304⟩]⟩]⟩ 2048 512 =
        some (⟨0, 0, 2048⟩, ⟨4194304, [⟨4194304, [⟨2048, 4194304⟩]⟩]⟩)) := by
  refine ⟨?_, ?_, by decide⟩
  · intro pool size al a pool' hal halloc
    simp only [VulkanMemoryPool.alloc] at halloc
    split at halloc
    · rename_i i iv pages heq
      simp only [Option.some.injEq, Prod.mk.injEq] at halloc
      obtain ⟨ha, -⟩ := halloc
      subst ha
      have hshape := allocScan_shape size al _ _ _ _ heq
      constructor
      · show iv.m_end - iv.m_begin = size
        rw [hshape.1]
        exact Nat.add_sub_cancel_left _ _
      · exact hshape.2 hal
    · rename_i heq
      split at halloc
      · exact Option.noConfusion halloc
      · rename_i iv p' heq2
        simp only [Option.some.injEq, Prod.mk.injEq] at halloc
        obtain ⟨ha, -⟩ := halloc
        subst ha
        simp only [PageAllocation.requestInterval, Option.map_eq_some'] at heq2
        obtain ⟨⟨iv1, fr⟩, hcore, hmap⟩ := heq2
        simp only [Prod.mk.injEq] at hmap
        obtain ⟨hiv1, -⟩ := hmap
        subst hiv1
        have hshape := requestIntervalCore_shape size al _ _ _ hcore
        constructor
        · show iv1.m_end - iv1.m_begin = size
          rw [hshape.1]
          exact Nat.add_sub_cancel_left _ _
        · exact hshape.2 hal
  · intro pool size al hscan
    have hle : size ≤ max size pool.m_minPageAllocationSize := le_max_left _ _
    have hfresh := requestIntervalCore_freshPage size (max size pool.m_minPageAllocationSize) al hle
    refine ⟨⟨max size pool.m_minPageAllocationSize,
      if size = max size pool.m_minPageAllocationSize then []
      else [⟨size, max size pool.m_minPageAllocationSize⟩]⟩, rfl, ?_⟩
    simp only [VulkanMemoryPool.alloc, hscan, PageAllocation.requestInterval,
      PageAllocation.fresh, hfresh, Option.map_some']
    simp

/-- C4 witness: a 5-byte, 4-aligned request on an empty pool with minimum page
size 16 — part one yields the length and divisibility facts and part two the
new-page shape. -/
theorem c4_alloc_contract_witness :
    ((⟨0, 0, 5⟩ : Allocation).m_size = 5 ∧
      (⟨0, 0, 5⟩ : Allocation).m_devMemOffset % 4 = 0) ∧
    (∃ p' : PageAllocation, p'.m_size = max 5 16 ∧
      VulkanMemoryPool.alloc ⟨16, []⟩ 5 4 =
        some (⟨List.length ([] : List PageAllocation), 0, 5⟩, ⟨16, ([] : List PageAllocation) ++ [p']⟩)) := by
  constructor
  · exact c4_alloc_contract.1 ⟨16, []⟩ 5 4 ⟨0, 0, 5⟩ ⟨16, [⟨16, [⟨5, 16⟩]⟩]⟩
      (by decide) (by decide)
  · exact c4_alloc_contract.2.1 ⟨16, []⟩ 5 4 (by decide)

end VkDdisplay
